import Mathlib

/-!
Shallow embedding of the trading-signals webhook service
(`signals_app/signal_parser.py`, `signals_app/order_manager.py`,
`signals_app/views.py`, `signals_app/consumers.py`).

Conventions of the embedding:
* Raw signal text is presented as its list of physical lines
  (Python's `str.splitlines` is modelled by that list).
* Python regular expressions over the restricted alphabets used by the
  source (`[A-Z0-9]`, `\d`, `.`, `\s`, `@`) are hand-rolled as greedy
  character scans; for these patterns greedy scanning is equivalent to
  the backtracking engine because the character classes at each boundary
  are disjoint.
* Decimal number tokens are interpreted exactly, as rationals
  (Python's binary `float` rounding is abstracted away; every claim here
  is about parse structure and order of comparisons, not about rounding).
* Strings are compared as their character lists.
-/

namespace SignalsApp

instance {ε α : Type} [DecidableEq ε] [DecidableEq α] : DecidableEq (Except ε α) :=
  fun x y =>
    match x, y with
    | .ok a, .ok b =>
      if h : a = b then .isTrue (by rw [h]) else .isFalse (fun hh => h (Except.ok.inj hh))
    | .error a, .error b =>
      if h : a = b then .isTrue (by rw [h]) else .isFalse (fun hh => h (Except.error.inj hh))
    | .ok _, .error _ => .isFalse (fun hh => Except.noConfusion hh)
    | .error _, .ok _ => .isFalse (fun hh => Except.noConfusion hh)

/-! ### Character classes used by the source regexes -/

/-- Python `\s` on the ASCII inputs the service handles. -/
def isSpaceChar (c : Char) : Bool :=
  c = ' ' || c = '\t' || c = '\n' || c = '\r' || c = '\x0b' || c = '\x0c'

/-- Python `\d` (ASCII digits). -/
def isDigitChar (c : Char) : Bool := c.isDigit

/-- Character class `[\d.]` of the price / SL / TP value tokens. -/
def isNumChar (c : Char) : Bool := c.isDigit || c = '.'

/-- Character class `[A-Z0-9]` under `re.IGNORECASE` (instrument token). -/
def isInstrChar (c : Char) : Bool :=
  ('A' ≤ c && c ≤ 'Z') || ('a' ≤ c && c ≤ 'z') || c.isDigit

/-- Model of `str.upper()` on the ASCII alphabet. -/
def upperChars (cs : List Char) : List Char := cs.map Char.toUpper

/-- Model of `str.strip()`: drop whitespace from both ends. -/
def stripChars (cs : List Char) : List Char :=
  ((cs.dropWhile isSpaceChar).reverse.dropWhile isSpaceChar).reverse

/-- Model of `str.strip()` lifted to `String`. -/
def stripStr (s : String) : String := String.mk (stripChars s.data)

/-! ### Number tokens (`float(...)` on strings drawn from `[\d.]+`) -/

/-- Digits of a token read as a natural number (empty list reads as 0). -/
def natOfDigits (cs : List Char) : ℕ :=
  cs.foldl (fun n c => 10 * n + (c.toNat - 48)) 0

/-- Python `float()` accepts a `[\d.]+` token iff it has at least one digit and
at most one dot. -/
def validNumToken (cs : List Char) : Bool :=
  !cs.isEmpty && cs.all isNumChar && cs.any isDigitChar &&
    decide (cs.count '.' ≤ 1)

/-- Exact decimal value of a valid token (integer part, optional dot,
fractional part): all digits over `10 ^ length-of-fractional-part`. -/
def tokenValue (cs : List Char) : ℚ :=
  let ip := cs.takeWhile (fun c => !(c == '.'))
  match cs.dropWhile (fun c => !(c == '.')) with
  | [] => (natOfDigits ip : ℚ)
  | _ :: fp => mkRat (natOfDigits (ip ++ fp)) (10 ^ fp.length)

/-- Model of Python `float(tok)` for tokens matched by `[\d.]+`:
`some` exactly when `float` succeeds. -/
def pyFloat? (cs : List Char) : Option ℚ :=
  if validNumToken cs then some (tokenValue cs) else none

/-! ### The action-line regex
`^(BUY|SELL)\s+([A-Z0-9]+)(?:\s+@([\d.]+))?$` with `re.IGNORECASE`
(`signal_parser.py` lines 56-59). -/

/-- Case-insensitive keyword removal: `some rest` iff the text starts
with the keyword (up to ASCII case). -/
def dropCI : List Char → List Char → Option (List Char)
  | [], cs => some cs
  | _ :: _, [] => none
  | k :: ks, c :: cs => if c.toLower = k.toLower then dropCI ks cs else none

/-- The part of the action-line regex after the action keyword:
`\s+([A-Z0-9]+)(?:\s+@([\d.]+))?$`.  Returns instrument token and
optional price token. -/
def matchTail (cs : List Char) : Option (List Char × Option (List Char)) :=
  let r1 := cs.dropWhile isSpaceChar
  if cs.takeWhile isSpaceChar = [] then none
  else
    let instr := r1.takeWhile isInstrChar
    let r2 := r1.dropWhile isInstrChar
    if instr = [] then none
    else if r2 = [] then some (instr, none)
    else
      let r3 := r2.dropWhile isSpaceChar
      if r2.takeWhile isSpaceChar = [] then none
      else
        match r3 with
        | '@' :: tok =>
            if !tok.isEmpty && tok.all isNumChar then some (instr, some tok)
            else none
        | _ => none

/-- Full-line match of the action pattern, returning the canonical
(uppercased) action together with the raw instrument and price tokens. -/
def matchActionLine (cs : List Char) : Option (String × List Char × Option (List Char)) :=
  match dropCI ['B', 'U', 'Y'] cs with
  | some rest => (matchTail rest).map (fun ip => ("BUY", ip.1, ip.2))
  | none =>
    match dropCI ['S', 'E', 'L', 'L'] cs with
    | some rest => (matchTail rest).map (fun ip => ("SELL", ip.1, ip.2))
    | none => none

/-! ### SL / TP extraction
`^LABEL\s+([\d.]+)$` with `re.IGNORECASE` (`_extract_value`,
`signal_parser.py` lines 105-126). -/

/-- Full-line match of `^LABEL\s+([\d.]+)$`, returning the value token. -/
def matchLabelLine (label : List Char) (cs : List Char) : Option (List Char) :=
  match dropCI label cs with
  | none => none
  | some rest =>
    let tok := rest.dropWhile isSpaceChar
    if rest.takeWhile isSpaceChar = [] then none
    else if !tok.isEmpty && tok.all isNumChar then some tok
    else none

/-- First line (in order) whose full text matches the label pattern. -/
def findLabelValue (label : List Char) : List String → Option (List Char)
  | [] => none
  | l :: ls =>
    match matchLabelLine label l.data with
    | some tok => some tok
    | none => findLabelValue label ls

/-! ### Parser result and error taxonomy
One constructor per distinct `raise SignalValidationError` site of
`signal_parser.py`. -/

inductive ParseError where
  | emptySignal
  | tooFewLines
  | invalidActionLine (line : String)
  | invalidEntryPrice (tok : String)
  | missingValue (label : String)
  | invalidNumber (label : String) (tok : String)
  | buyRiskReward (sl tp : ℚ)
  | sellRiskReward (sl tp : ℚ)
deriving DecidableEq, Repr

/-- The `ParsedSignal` dataclass (`signal_parser.py` lines 18-25). -/
structure ParsedSignal where
  action : String
  instrument : String
  entry_price : Option ℚ
  stop_loss : ℚ
  take_profit : ℚ
deriving DecidableEq, Repr

/-- Model of `_extract_value(lines, label)`: first line matching the label pattern;
missing label and unconvertible value are distinct failures. -/
def extract_value (lines : List String) (label : String) : Except ParseError ℚ :=
  match findLabelValue label.data lines with
  | none => .error (.missingValue label)
  | some tok =>
    match pyFloat? tok with
    | none => .error (.invalidNumber label (String.mk tok))
    | some v => .ok v

/-- Entry-price handling (`signal_parser.py` lines 71-78): the token, when
present, is nonempty, hence truthy, and is converted with `float`. -/
def entryPriceOf : Option (List Char) → Except ParseError (Option ℚ)
  | none => .ok none
  | some tok =>
    match pyFloat? tok with
    | none => .error (.invalidEntryPrice (String.mk tok))
    | some v => .ok (some v)

/-- Input normalization (`signal_parser.py` line 47): strip each line and
drop blank lines. -/
def normalizeLines (rawLines : List String) : List String :=
  (rawLines.map stripStr).filter (fun l => !l.data.isEmpty)

/-- Structural stage of `parse_signal` on the normalized lines: empty
check, line-count check, action line, entry price, SL, TP — in exactly
the source's order.  Returns
`(action, instrument, entry_price, stop_loss, take_profit)`. -/
def resolveFieldsNorm (lines : List String) :
    Except ParseError (String × String × Option ℚ × ℚ × ℚ) :=
  match lines with
  | [] => .error .emptySignal
  | actionLine :: _ =>
    if lines.length < 3 then .error .tooFewLines
    else
      match matchActionLine actionLine.data with
      | none => .error (.invalidActionLine actionLine)
      | some (action, instr, tok?) =>
        match entryPriceOf tok? with
        | .error e => .error e
        | .ok ep =>
          match extract_value lines "SL" with
          | .error e => .error e
          | .ok sl =>
            match extract_value lines "TP" with
            | .error e => .error e
            | .ok tp => .ok (action, String.mk (upperChars instr), ep, sl, tp)

/-- Structural stage of `parse_signal` on the raw text. -/
def resolveFields (rawLines : List String) :
    Except ParseError (String × String × Option ℚ × ℚ × ℚ) :=
  resolveFieldsNorm (normalizeLines rawLines)

/-- Cross-field validation (`signal_parser.py` lines 85-94). -/
def riskCheck (action : String) (sl tp : ℚ) : Except ParseError Unit :=
  if action = "BUY" then
    if sl ≥ tp then .error (.buyRiskReward sl tp) else .ok ()
  else if action = "SELL" then
    if sl ≤ tp then .error (.sellRiskReward sl tp) else .ok ()
  else .ok ()

/-- Model of `parse_signal(raw_text)` (`signal_parser.py` lines 28-102): structural
resolution followed by cross-field validation. -/
def parse_signal (rawLines : List String) : Except ParseError ParsedSignal :=
  match resolveFields rawLines with
  | .error e => .error e
  | .ok (action, instrument, ep, sl, tp) =>
    match riskCheck action sl tp with
    | .error e => .error e
    | .ok _ => .ok ⟨action, instrument, ep, sl, tp⟩

/-! ### Shapes of well-formed raw signals (statement-side constructors) -/

/-- First line `BUY <INSTR>` or `BUY <INSTR> @<price>`. -/
def buyActionLine (I : List Char) : Option (List Char) → String
  | none => String.mk ('B' :: 'U' :: 'Y' :: ' ' :: I)
  | some p => String.mk ('B' :: 'U' :: 'Y' :: ' ' :: (I ++ ' ' :: '@' :: p))

/-- A line `SL <token>`. -/
def slLine (X : List Char) : String := String.mk ('S' :: 'L' :: ' ' :: X)

/-- A line `TP <token>`. -/
def tpLine (Y : List Char) : String := String.mk ('T' :: 'P' :: ' ' :: Y)

/-- The raw text of a BUY signal, with the SL and TP lines in either
order. -/
def buySignalLines (I : List Char) (P? : Option (List Char)) (X Y : List Char)
    (slFirst : Bool) : List String :=
  if slFirst then [buyActionLine I P?, slLine X, tpLine Y]
  else [buyActionLine I P?, tpLine Y, slLine X]


/-! ### Order lifecycle engine (`order_manager.py`) -/

/-- The slice of the `Order` row (`models.py` lines 31-61) the lifecycle
engine reads, together with the owner's identity. -/
structure OrderRec where
  id : String
  userId : ℕ
  username : String
  action : String
  instrument : String
  entry_price : Option ℚ
  stop_loss : ℚ
  take_profit : ℚ
  status : String
deriving DecidableEq, Repr

/-- JSON-ish values of the notification payload. -/
inductive JVal where
  | s (v : String)
  | null
deriving DecidableEq, Repr

/-- Rendering of `str(Decimal(...))`; only the slot's presence and string-ness
matter to the claims, not the digits. -/
def decStr (q : ℚ) : String := toString q

/-- Channel group targeted by `_broadcast_order_update`
(`order_manager.py` line 130): `orders_user_<user_id>`. -/
def broadcastGroup (o : OrderRec) : String := "orders_user_" ++ toString o.userId

/-- The `data` payload of the `order_update` channel message built by
`_broadcast_order_update` (`order_manager.py` lines 131-144); this is what
subscribers receive.  Python's `str(x) if x else None` sends `null` both
for a missing and for a zero entry price. -/
def broadcastData (o : OrderRec) (event_type : String) : List (String × JVal) :=
  [("type", .s event_type),
   ("order_id", .s o.id),
   ("instrument", .s o.instrument),
   ("action", .s o.action),
   ("status", .s o.status),
   ("entry_price",
     match o.entry_price with
     | some p => if p = 0 then .null else .s (decStr p)
     | none => .null),
   ("stop_loss", .s (decStr o.stop_loss)),
   ("take_profit", .s (decStr o.take_profit)),
   ("user", .s o.username)]

/-- Observable steps of the background order-processing task. -/
inductive LifeEvent where
  | persistStatus (status : String)
  | persistExternalId
  | audit (action : String)
  | notify (group : String) (message : List (String × JVal))
  | logError
deriving DecidableEq, Repr

/-- Model of `_simulate_order_lifecycle` (`order_manager.py` lines 95-116): sleep,
set `executed`, save, audit, broadcast; sleep again, set `closed`, save,
audit, broadcast.  The sleeps are not observable events; a failure at any
step truncates the executed portion of the trace (modelled by `List.take`
at the use sites). -/
def lifecycleTrace (o : OrderRec) : List LifeEvent :=
  let o1 : OrderRec := { o with status := "executed" }
  let o2 : OrderRec := { o1 with status := "closed" }
  [.persistStatus "executed", .audit "order_executed",
   .notify (broadcastGroup o1) (broadcastData o1 "order.executed"),
   .persistStatus "closed", .audit "order_closed",
   .notify (broadcastGroup o2) (broadcastData o2 "order.closed")]

/-- Model of `_process_order_in_background` (`order_manager.py` lines 40-92): create
the order row in `pending`, audit `order_created`; call the execution stub —
on failure log the error and return without any transition or notification;
on success save the confirmation id, audit `order_submitted`, and run the
lifecycle simulation. -/
def processTrace (o : OrderRec) (brokerOk : Bool) : List LifeEvent :=
  [.persistStatus "pending", .audit "order_created"] ++
    (if brokerOk then
      .persistExternalId :: .audit "order_submitted" :: lifecycleTrace o
    else [.logError])

/-- Statuses persisted by a (possibly truncated) execution, in order. -/
def persistedStatuses (evs : List LifeEvent) : List String :=
  evs.filterMap (fun e => match e with | .persistStatus s => some s | _ => none)

/-- The `type` fields of the notifications published by a (possibly truncated)
execution, in order. -/
def notifiedTypes (evs : List LifeEvent) : List String :=
  evs.filterMap (fun e =>
    match e with
    | .notify _ m =>
      match m.lookup "type" with
      | some (.s t) => some t
      | _ => none
    | _ => none)

/-- The status column's declared progression
(`models.py` STATUS_CHOICES, lines 36-40). -/
def statusChain : List String := ["pending", "executed", "closed"]

/-- A sample persisted order used for concrete evaluation. -/
def sampleOrder : OrderRec :=
  { id := "8f14e45f", userId := 7, username := "alice", action := "BUY",
    instrument := "EURUSD", entry_price := some 2, stop_loss := 1,
    take_profit := 3, status := "pending" }

/-! ### WebSocket consumer (`consumers.py`) -/

/-- The single group every connecting `OrderConsumer` joins
(`consumers.py` line 31). -/
def ordersUpdatesGroup : String := "orders_updates"

/-- A `group_send` to group `g` reaches an `OrderConsumer` iff the consumer
is a member of `g`; every consumer joined exactly `ordersUpdatesGroup`. -/
def consumerReceives (g : String) : Bool := g == ordersUpdatesGroup

/-! ### Webhook view (`views.py` `receive_signal`) -/

/-- Attributes exposed by Python's `uuid.UUID` objects
(`id` and `status` are not among them). -/
def uuidAttrNames : List String :=
  ["bytes", "bytes_le", "clock_seq", "clock_seq_hi_variant", "clock_seq_low",
   "fields", "hex", "int", "is_safe", "node", "time", "time_hi_version",
   "time_low", "time_mid", "urn", "variant", "version"]

/-- Attribute lookup on a `uuid.UUID` value; `none` models the
`AttributeError` raised for a missing attribute. -/
def uuidGetAttr (u : ℕ) (name : String) : Option ℕ :=
  if uuidAttrNames.contains name then some u else none

/-- Model of `create_and_process_order` (`order_manager.py` lines 23-37): allocate a
fresh UUID, start the background thread, and return the bare UUID. -/
def create_and_process_order (freshId : ℕ) : ℕ := freshId

/-- Outcome of one `receive_signal` request. -/
inductive ViewOutcome where
  | response (statusCode : ℕ)
  | attributeError
deriving DecidableEq, Repr

/-- Model of `receive_signal` (`views.py` lines 108-156) for an authenticated request
whose serializer validated: parse; on rejection respond 422; without an
active broker account respond 400; otherwise call
`create_and_process_order` and build the success body from `order.id` and
`order.status` — attribute lookups on the returned bare UUID. -/
def receive_signal (rawLines : List String) (hasActiveAccount : Bool)
    (freshId : ℕ) : ViewOutcome :=
  match parse_signal rawLines with
  | .error _ => .response 422
  | .ok _ =>
    if hasActiveAccount then
      let order := create_and_process_order freshId
      match uuidGetAttr order "id", uuidGetAttr order "status" with
      | some _, some _ => .response 200
      | _, _ => .attributeError
    else .response 400

/-! ### Generic scanning lemmas -/

theorem takeWhile_append_all {α : Type} {p : α → Bool} {xs ys : List α}
    (h : ∀ x ∈ xs, p x = true) :
    (xs ++ ys).takeWhile p = xs ++ ys.takeWhile p := by
  induction xs with
  | nil => simp
  | cons a t ih =>
    have ha : p a = true := h a (by simp)
    simp only [List.cons_append, List.takeWhile_cons_of_pos ha, List.cons.injEq, true_and]
    exact ih (fun x hx => h x (by simp [hx]))

theorem dropWhile_append_all {α : Type} {p : α → Bool} {xs ys : List α}
    (h : ∀ x ∈ xs, p x = true) :
    (xs ++ ys).dropWhile p = ys.dropWhile p := by
  induction xs with
  | nil => simp
  | cons a t ih =>
    have ha : p a = true := h a (by simp)
    simp only [List.cons_append, List.dropWhile_cons_of_pos ha]
    exact ih (fun x hx => h x (by simp [hx]))

theorem takeWhile_eq_self_of_all {α : Type} {p : α → Bool} {xs : List α}
    (h : ∀ x ∈ xs, p x = true) : xs.takeWhile p = xs := by
  have := @takeWhile_append_all α p xs [] h
  simpa using this

theorem dropWhile_eq_nil_of_all {α : Type} {p : α → Bool} {xs : List α}
    (h : ∀ x ∈ xs, p x = true) : xs.dropWhile p = [] := by
  have := @dropWhile_append_all α p xs [] h
  simpa using this

theorem dropWhile_eq_self_of_head {α : Type} {p : α → Bool} {l : List α}
    (h : ∀ c, l.head? = some c → p c = false) : l.dropWhile p = l := by
  cases l with
  | nil => rfl
  | cons a t =>
    have : p a = false := h a rfl
    simp [List.dropWhile_cons, this]

theorem mem_of_getLast?_eq {α : Type} {l : List α} {c : α}
    (h : l.getLast? = some c) : c ∈ l := by
  induction l with
  | nil => simp at h
  | cons a t ih =>
    cases t with
    | nil => simp_all
    | cons b u =>
      rw [List.getLast?_cons_cons] at h
      exact List.mem_cons_of_mem a (ih h)

/-! ### Character-class facts -/

theorem not_space_of_instr {c : Char} (h : isInstrChar c = true) : isSpaceChar c = false := by
  by_contra hs
  rw [Bool.not_eq_false] at hs
  unfold isSpaceChar at hs
  simp only [Bool.or_eq_true, decide_eq_true_eq] at hs
  rcases hs with ((((h1 | h1) | h1) | h1) | h1) | h1 <;> subst h1 <;>
    exact absurd h (by decide)

theorem not_space_of_num {c : Char} (h : isNumChar c = true) : isSpaceChar c = false := by
  by_contra hs
  rw [Bool.not_eq_false] at hs
  unfold isSpaceChar at hs
  simp only [Bool.or_eq_true, decide_eq_true_eq] at hs
  rcases hs with ((((h1 | h1) | h1) | h1) | h1) | h1 <;> subst h1 <;>
    exact absurd h (by decide)

/-! ### Stripping facts -/

theorem stripChars_eq_self {cs : List Char}
    (h1 : ∀ c, cs.head? = some c → isSpaceChar c = false)
    (h2 : ∀ c, cs.getLast? = some c → isSpaceChar c = false) :
    stripChars cs = cs := by
  unfold stripChars
  rw [dropWhile_eq_self_of_head h1]
  rw [dropWhile_eq_self_of_head (fun c hc => h2 c (by rwa [List.head?_reverse] at hc))]
  exact List.reverse_reverse cs

theorem stripChars_fixed {c0 : Char} {mid X : List Char} (hc0 : isSpaceChar c0 = false)
    (hX : X ≠ []) (hXc : ∀ c ∈ X, isSpaceChar c = false) :
    stripChars (c0 :: (mid ++ X)) = c0 :: (mid ++ X) := by
  apply stripChars_eq_self
  · intro c hc
    simp only [List.head?_cons, Option.some.injEq] at hc
    rw [← hc]
    exact hc0
  · intro c hc
    have hy : X.getLast?.isSome := by
      rw [List.getLast?_isSome]
      exact hX
    obtain ⟨y, hy⟩ := Option.isSome_iff_exists.mp hy
    have : (c0 :: (mid ++ X)).getLast? = some y := by
      rw [show c0 :: (mid ++ X) = (c0 :: mid) ++ X by simp,
        List.getLast?_append, hy]
      rfl
    rw [this] at hc
    injection hc with hc
    rw [← hc]
    exact hXc y (mem_of_getLast?_eq hy)

/-! ### Action-line and label-line matching lemmas -/

theorem matchTail_noPrice {I : List Char} (hI : I ≠ [])
    (hIc : ∀ c ∈ I, isInstrChar c = true) :
    matchTail (' ' :: I) = some (I, none) := by
  obtain ⟨i, I', rfl⟩ : ∃ i I', I = i :: I' := by
    cases I with
    | nil => exact absurd rfl hI
    | cons i I' => exact ⟨i, I', rfl⟩
  have hsp : isSpaceChar i = false := not_space_of_instr (hIc i (by simp))
  have h1 : (' ' :: i :: I').takeWhile isSpaceChar = [' '] := by
    rw [List.takeWhile_cons_of_pos (by decide), List.takeWhile_cons_of_neg (by simp [hsp])]
  have h2 : (' ' :: i :: I').dropWhile isSpaceChar = i :: I' := by
    rw [List.dropWhile_cons_of_pos (by decide), List.dropWhile_cons_of_neg (by simp [hsp])]
  have h3 : (i :: I').takeWhile isInstrChar = i :: I' := takeWhile_eq_self_of_all hIc
  have h4 : (i :: I').dropWhile isInstrChar = [] := dropWhile_eq_nil_of_all hIc
  unfold matchTail
  simp [h1, h2, h3, h4]

theorem matchTail_price {I t : List Char} (hI : I ≠ [])
    (hIc : ∀ c ∈ I, isInstrChar c = true) (ht : t ≠ [])
    (htc : ∀ c ∈ t, isNumChar c = true) :
    matchTail (' ' :: (I ++ ' ' :: '@' :: t)) = some (I, some t) := by
  obtain ⟨i, I', rfl⟩ : ∃ i I', I = i :: I' := by
    cases I with
    | nil => exact absurd rfl hI
    | cons i I' => exact ⟨i, I', rfl⟩
  have hsp : isSpaceChar i = false := not_space_of_instr (hIc i (by simp))
  have h1 : (' ' :: i :: (I' ++ ' ' :: '@' :: t)).takeWhile isSpaceChar = [' '] := by
    rw [List.takeWhile_cons_of_pos (by decide), List.takeWhile_cons_of_neg (by simp [hsp])]
  have h2 : (' ' :: i :: (I' ++ ' ' :: '@' :: t)).dropWhile isSpaceChar =
      i :: (I' ++ ' ' :: '@' :: t) := by
    rw [List.dropWhile_cons_of_pos (by decide), List.dropWhile_cons_of_neg (by simp [hsp])]
  have h3 : (i :: (I' ++ ' ' :: '@' :: t)).takeWhile isInstrChar = i :: I' := by
    rw [← List.cons_append, takeWhile_append_all hIc,
      List.takeWhile_cons_of_neg (by decide), List.append_nil]
  have h4 : (i :: (I' ++ ' ' :: '@' :: t)).dropWhile isInstrChar = ' ' :: '@' :: t := by
    rw [← List.cons_append, dropWhile_append_all hIc, List.dropWhile_cons_of_neg (by decide)]
  have h5 : (' ' :: '@' :: t).takeWhile isSpaceChar = [' '] := by
    rw [List.takeWhile_cons_of_pos (by decide), List.takeWhile_cons_of_neg (by decide)]
  have h6 : (' ' :: '@' :: t).dropWhile isSpaceChar = '@' :: t := by
    rw [List.dropWhile_cons_of_pos (by decide), List.dropWhile_cons_of_neg (by decide)]
  have h7 : (!t.isEmpty && t.all isNumChar) = true := by
    simp only [Bool.and_eq_true, Bool.not_eq_true', List.all_eq_true]
    exact ⟨by simpa using ht, htc⟩
  unfold matchTail
  simp only [List.cons_append]
  simp [h1, h2, h3, h4, h5, h6, h7]

theorem matchActionLine_buy {tail : List Char} :
    matchActionLine ('B' :: 'U' :: 'Y' :: tail) =
      (matchTail tail).map (fun ip => ("BUY", ip.1, ip.2)) := by
  unfold matchActionLine
  simp [dropCI]

theorem matchLabelLine_mismatch {k c : Char} {ks cs : List Char}
    (h : ¬ c.toLower = k.toLower) : matchLabelLine (k :: ks) (c :: cs) = none := by
  unfold matchLabelLine dropCI
  simp [h]

theorem matchLabelLine_hit {l0 l1 : Char} {X : List Char} (hX : X ≠ [])
    (hXc : ∀ c ∈ X, isNumChar c = true) :
    matchLabelLine [l0, l1] (l0 :: l1 :: ' ' :: X) = some X := by
  obtain ⟨x, X', rfl⟩ : ∃ x X', X = x :: X' := by
    cases X with
    | nil => exact absurd rfl hX
    | cons x X' => exact ⟨x, X', rfl⟩
  have hsp : isSpaceChar x = false := not_space_of_num (hXc x (by simp))
  have h1 : (' ' :: x :: X').takeWhile isSpaceChar = [' '] := by
    rw [List.takeWhile_cons_of_pos (by decide), List.takeWhile_cons_of_neg (by simp [hsp])]
  have h2 : (' ' :: x :: X').dropWhile isSpaceChar = x :: X' := by
    rw [List.dropWhile_cons_of_pos (by decide), List.dropWhile_cons_of_neg (by simp [hsp])]
  have h3 : (!(x :: X').isEmpty && (x :: X').all isNumChar) = true := by
    simp only [Bool.and_eq_true, Bool.not_eq_true', List.all_eq_true]
    exact ⟨by simp, hXc⟩
  unfold matchLabelLine
  simp [dropCI, h1, h2, h3]
  exact ⟨hXc x (by simp), fun c hc => hXc c (by simp [hc])⟩

/-! ### Inversion for number tokens -/

theorem pyFloat?_some {cs : List Char} {v : ℚ} (h : pyFloat? cs = some v) :
    cs ≠ [] ∧ (∀ c ∈ cs, isNumChar c = true) ∧ v = tokenValue cs := by
  unfold pyFloat? at h
  split at h
  · next hv =>
    unfold validNumToken at hv
    simp only [Bool.and_eq_true, List.all_eq_true, Bool.not_eq_true',
      List.isEmpty_eq_false_iff_exists_mem] at hv
    obtain ⟨⟨⟨hne, hall⟩, _⟩, _⟩ := hv
    refine ⟨?_, hall, by injection h with h2; exact h2.symm⟩
    rcases hne with ⟨x, hx⟩
    intro hnil
    rw [hnil] at hx
    simp at hx
  · exact absurd h (by simp)

/-! ### Normalization and extraction on three-line signals -/

theorem normalizeThree {A B C : String}
    (hA : stripChars A.data = A.data) (hB : stripChars B.data = B.data)
    (hC : stripChars C.data = C.data)
    (hAne : A.data.isEmpty = false) (hBne : B.data.isEmpty = false)
    (hCne : C.data.isEmpty = false) :
    normalizeLines [A, B, C] = [A, B, C] := by
  unfold normalizeLines stripStr
  simp [hA, hB, hC, hAne, hBne, hCne]

theorem extract_value_buy_lines {A : String} {X Y rest : List Char} {sl tp : ℚ}
    (hAd : A.data = 'B' :: rest)
    (hX : pyFloat? X = some sl) (hY : pyFloat? Y = some tp) :
    extract_value [A, slLine X, tpLine Y] "SL" = .ok sl ∧
    extract_value [A, slLine X, tpLine Y] "TP" = .ok tp ∧
    extract_value [A, tpLine Y, slLine X] "SL" = .ok sl ∧
    extract_value [A, tpLine Y, slLine X] "TP" = .ok tp := by
  obtain ⟨hXne, hXc, -⟩ := pyFloat?_some hX
  obtain ⟨hYne, hYc, -⟩ := pyFloat?_some hY
  have hSLd : ("SL" : String).data = ['S', 'L'] := rfl
  have hTPd : ("TP" : String).data = ['T', 'P'] := rfl
  have hsl : (slLine X).data = 'S' :: 'L' :: ' ' :: X := rfl
  have htp : (tpLine Y).data = 'T' :: 'P' :: ' ' :: Y := rfl
  have hmA_SL : matchLabelLine ['S', 'L'] A.data = none := by
    rw [hAd]; exact matchLabelLine_mismatch (by decide)
  have hmA_TP : matchLabelLine ['T', 'P'] A.data = none := by
    rw [hAd]; exact matchLabelLine_mismatch (by decide)
  have hmS_SL : matchLabelLine ['S', 'L'] (slLine X).data = some X := by
    rw [hsl]; exact matchLabelLine_hit hXne hXc
  have hmT_TP : matchLabelLine ['T', 'P'] (tpLine Y).data = some Y := by
    rw [htp]; exact matchLabelLine_hit hYne hYc
  have hmS_TP : matchLabelLine ['T', 'P'] (slLine X).data = none := by
    rw [hsl]; exact matchLabelLine_mismatch (by decide)
  have hmT_SL : matchLabelLine ['S', 'L'] (tpLine Y).data = none := by
    rw [htp]; exact matchLabelLine_mismatch (by decide)
  refine ⟨?_, ?_, ?_, ?_⟩ <;>
    simp [extract_value, findLabelValue, hSLd, hTPd, hmA_SL, hmA_TP, hmS_SL,
      hmT_TP, hmS_TP, hmT_SL, hX, hY]

theorem resolveFieldsNorm_three {A L2 L3 : String} {act : String} {instr : List Char}
    {tok? : Option (List Char)} {ep : Option ℚ} {sl tp : ℚ}
    (hact : matchActionLine A.data = some (act, instr, tok?))
    (hep : entryPriceOf tok? = .ok ep)
    (hsl : extract_value [A, L2, L3] "SL" = .ok sl)
    (htp : extract_value [A, L2, L3] "TP" = .ok tp) :
    resolveFieldsNorm [A, L2, L3] =
      .ok (act, String.mk (upperChars instr), ep, sl, tp) := by
  unfold resolveFieldsNorm
  simp [hact, hep, hsl, htp]

theorem strip_buyActionLine {I : List Char} (P? : Option (List Char))
    (hI : I ≠ []) (hIc : ∀ c ∈ I, isInstrChar c = true)
    (hP : ∀ p ∈ P?, p ≠ [] ∧ ∀ c ∈ p, isNumChar c = true) :
    stripChars (buyActionLine I P?).data = (buyActionLine I P?).data := by
  cases P? with
  | none =>
    show stripChars ('B' :: 'U' :: 'Y' :: ' ' :: I) = 'B' :: 'U' :: 'Y' :: ' ' :: I
    have he : 'B' :: 'U' :: 'Y' :: ' ' :: I = 'B' :: (['U', 'Y', ' '] ++ I) := rfl
    rw [he]
    exact stripChars_fixed (by decide) hI (fun c hc => not_space_of_instr (hIc c hc))
  | some p =>
    obtain ⟨hpne, hpc⟩ := hP p (by simp)
    show stripChars ('B' :: 'U' :: 'Y' :: ' ' :: (I ++ ' ' :: '@' :: p)) =
      'B' :: 'U' :: 'Y' :: ' ' :: (I ++ ' ' :: '@' :: p)
    have he : 'B' :: 'U' :: 'Y' :: ' ' :: (I ++ ' ' :: '@' :: p)
        = 'B' :: ((['U', 'Y', ' '] ++ I ++ [' ', '@']) ++ p) := by simp
    rw [he]
    exact stripChars_fixed (by decide) hpne (fun c hc => not_space_of_num (hpc c hc))

theorem strip_slLine {X : List Char} (hX : X ≠ [])
    (hXc : ∀ c ∈ X, isNumChar c = true) :
    stripChars (slLine X).data = (slLine X).data := by
  show stripChars ('S' :: 'L' :: ' ' :: X) = 'S' :: 'L' :: ' ' :: X
  have he : 'S' :: 'L' :: ' ' :: X = 'S' :: (['L', ' '] ++ X) := rfl
  rw [he]
  exact stripChars_fixed (by decide) hX (fun c hc => not_space_of_num (hXc c hc))

theorem strip_tpLine {Y : List Char} (hY : Y ≠ [])
    (hYc : ∀ c ∈ Y, isNumChar c = true) :
    stripChars (tpLine Y).data = (tpLine Y).data := by
  show stripChars ('T' :: 'P' :: ' ' :: Y) = 'T' :: 'P' :: ' ' :: Y
  have he : 'T' :: 'P' :: ' ' :: Y = 'T' :: (['P', ' '] ++ Y) := rfl
  rw [he]
  exact stripChars_fixed (by decide) hY (fun c hc => not_space_of_num (hYc c hc))

/-- C1: for every raw signal of the shape `BUY <INSTR> [@price]` followed,
in either order, by a line `SL x` and a line `TP y` with valid number
tokens and `x < y`, `parse_signal` succeeds and returns action `BUY`, the
instrument uppercased, the entry price of the price token (absent when no
token is present), stop loss `x` and take profit `y`. -/
theorem buy_signal_parses (I X Y : List Char) (P? : Option (List Char))
    (sl tp : ℚ) (ep : Option ℚ) (slFirst : Bool)
    (hI : I ≠ []) (hIc : ∀ c ∈ I, isInstrChar c = true)
    (hX : pyFloat? X = some sl) (hY : pyFloat? Y = some tp)
    (hP : match P?, ep with
          | none, none => True
          | some p, some v => pyFloat? p = some v
          | _, _ => False)
    (hlt : sl < tp) :
    parse_signal (buySignalLines I P? X Y slFirst) =
      .ok ⟨"BUY", String.mk (upperChars I), ep, sl, tp⟩ := by
  obtain ⟨hXne, hXc, -⟩ := pyFloat?_some hX
  obtain ⟨hYne, hYc, -⟩ := pyFloat?_some hY
  have hPp : ∀ p ∈ P?, p ≠ [] ∧ ∀ c ∈ p, isNumChar c = true := by
    intro p hp
    cases P? with
    | none => simp at hp
    | some q =>
      cases ep with
      | none => exact hP.elim
      | some v =>
        have hq : q = p := by simpa using hp
        subst hq
        obtain ⟨h1, h2, -⟩ := pyFloat?_some hP
        exact ⟨h1, h2⟩
  have hact : matchActionLine (buyActionLine I P?).data = some ("BUY", I, P?) := by
    cases P? with
    | none =>
      show matchActionLine ('B' :: 'U' :: 'Y' :: (' ' :: I)) = _
      rw [matchActionLine_buy, matchTail_noPrice hI hIc]
      rfl
    | some p =>
      obtain ⟨hpne, hpc⟩ := hPp p (by simp)
      show matchActionLine ('B' :: 'U' :: 'Y' :: (' ' :: (I ++ ' ' :: '@' :: p))) = _
      rw [matchActionLine_buy, matchTail_price hI hIc hpne hpc]
      rfl
  have hep : entryPriceOf P? = .ok ep := by
    cases P? with
    | none =>
      cases ep with
      | none => rfl
      | some v => exact hP.elim
    | some p =>
      cases ep with
      | none => exact hP.elim
      | some v => simp [entryPriceOf, hP]
  have hAd : ∃ rest, (buyActionLine I P?).data = 'B' :: rest := by
    cases P? <;> exact ⟨_, rfl⟩
  obtain ⟨rest0, hAd⟩ := hAd
  have hext := extract_value_buy_lines hAd hX hY
  have hAne : (buyActionLine I P?).data.isEmpty = false := by cases P? <;> rfl
  have hstripA := strip_buyActionLine P? hI hIc hPp
  have hstripS := strip_slLine hXne hXc
  have hstripT := strip_tpLine hYne hYc
  have hres : resolveFields (buySignalLines I P? X Y slFirst) =
      .ok ("BUY", String.mk (upperChars I), ep, sl, tp) := by
    unfold resolveFields
    cases slFirst with
    | false =>
      have hnorm : normalizeLines [buyActionLine I P?, tpLine Y, slLine X] =
          [buyActionLine I P?, tpLine Y, slLine X] :=
        normalizeThree hstripA hstripT hstripS hAne rfl rfl
      show resolveFieldsNorm (normalizeLines [buyActionLine I P?, tpLine Y, slLine X]) = _
      rw [hnorm]
      exact resolveFieldsNorm_three hact hep hext.2.2.1 hext.2.2.2
    | true =>
      have hnorm : normalizeLines [buyActionLine I P?, slLine X, tpLine Y] =
          [buyActionLine I P?, slLine X, tpLine Y] :=
        normalizeThree hstripA hstripS hstripT hAne rfl rfl
      show resolveFieldsNorm (normalizeLines [buyActionLine I P?, slLine X, tpLine Y]) = _
      rw [hnorm]
      exact resolveFieldsNorm_three hact hep hext.1 hext.2.1
  unfold parse_signal
  rw [hres]
  simp [riskCheck, not_le.mpr hlt]

/-- Witness for C1 at a concrete signal:
`BUY eurusd @2 / SL 1 / TP 3`. -/
theorem buy_signal_parses_witness :
    parse_signal
        (buySignalLines ['e', 'u', 'r', 'u', 's', 'd'] (some ['2']) ['1'] ['3'] true) =
      .ok ⟨"BUY", String.mk (upperChars ['e', 'u', 'r', 'u', 's', 'd']), some 2, 1, 3⟩ :=
  buy_signal_parses ['e', 'u', 'r', 'u', 's', 'd'] ['1'] ['3'] (some ['2']) 1 3 (some 2)
    true (by decide) (by decide) (by decide) (by decide) (by decide) (by decide)

/-! ### Inversion lemmas for the parser -/

theorem extract_value_ok {lines : List String} {label : String} {v : ℚ}
    (h : extract_value lines label = .ok v) :
    ∃ tok, pyFloat? tok = some v := by
  unfold extract_value at h
  split at h
  · exact absurd h (by simp)
  · next tok heq =>
    split at h
    · exact absurd h (by simp)
    · next v' hv =>
      refine ⟨tok, ?_⟩
      rw [hv]
      injection h with h
      rw [h]

theorem entryPriceOf_ok {tok? : Option (List Char)} {ep : Option ℚ}
    (h : entryPriceOf tok? = .ok ep) :
    ∀ v, ep = some v → ∃ tok, pyFloat? tok = some v := by
  intro v hv
  subst hv
  cases tok? with
  | none => simp [entryPriceOf] at h
  | some tok =>
    refine ⟨tok, ?_⟩
    have hstep : entryPriceOf (some tok) =
        (match pyFloat? tok with
         | none => Except.error (.invalidEntryPrice (String.mk tok))
         | some v => Except.ok (some v)) := rfl
    rw [hstep] at h
    split at h
    · exact absurd h (by simp)
    · next w hw =>
      injection h with h
      rw [hw]
      exact h

theorem matchActionLine_action {cs : List Char} {act : String} {instr : List Char}
    {tok? : Option (List Char)}
    (h : matchActionLine cs = some (act, instr, tok?)) :
    act = "BUY" ∨ act = "SELL" := by
  unfold matchActionLine at h
  split at h
  · rcases Option.map_eq_some'.mp h with ⟨ip, -, heq⟩
    exact Or.inl (congrArg Prod.fst heq).symm
  · split at h
    · rcases Option.map_eq_some'.mp h with ⟨ip, -, heq⟩
      exact Or.inr (congrArg Prod.fst heq).symm
    · exact absurd h (by simp)

theorem resolveFields_inv {rawLines : List String} {a i : String}
    {ep : Option ℚ} {sl tp : ℚ}
    (h : resolveFields rawLines = .ok (a, i, ep, sl, tp)) :
    (a = "BUY" ∨ a = "SELL") ∧
    (∃ tX, pyFloat? tX = some sl) ∧ (∃ tY, pyFloat? tY = some tp) ∧
    (∀ v, ep = some v → ∃ tP, pyFloat? tP = some v) := by
  unfold resolveFields resolveFieldsNorm at h
  split at h
  · exact absurd h (by simp)
  · split at h
    · exact absurd h (by simp)
    · split at h
      · exact absurd h (by simp)
      · next act instr tok? hact =>
        split at h
        · exact absurd h (by simp)
        · next ep' hep =>
          split at h
          · exact absurd h (by simp)
          · next sl' hsl =>
            split at h
            · exact absurd h (by simp)
            · next tp' htp =>
              simp only [Except.ok.injEq, Prod.mk.injEq] at h
              obtain ⟨rfl, -, rfl, rfl, rfl⟩ := h
              exact ⟨matchActionLine_action hact, extract_value_ok hsl,
                extract_value_ok htp, entryPriceOf_ok hep⟩

theorem parse_signal_ok {rawLines : List String} {p : ParsedSignal}
    (h : parse_signal rawLines = .ok p) :
    resolveFields rawLines =
      .ok (p.action, p.instrument, p.entry_price, p.stop_loss, p.take_profit) := by
  unfold parse_signal at h
  split at h
  · exact absurd h (by simp)
  · next a i ep sl tp hres =>
    split at h
    · exact absurd h (by simp)
    · injection h with h
      rw [← h]
      exact hres

/-! ### Nonnegativity of token values -/

theorem tokenValue_nonneg (cs : List Char) : 0 ≤ tokenValue cs := by
  unfold tokenValue
  split
  · exact Nat.cast_nonneg _
  · rw [Rat.mkRat_eq_div]
    positivity

theorem pyFloat?_nonneg {cs : List Char} {v : ℚ} (h : pyFloat? cs = some v) :
    0 ≤ v := by
  obtain ⟨-, -, hv⟩ := pyFloat?_some h
  rw [hv]
  exact tokenValue_nonneg cs

/-! ### Rejection of non-BUY/SELL action tokens -/

theorem matchTail_no_space {c : Char} {cs : List Char}
    (hc : isSpaceChar c = false) : matchTail (c :: cs) = none := by
  have h1 : (c :: cs).takeWhile isSpaceChar = [] :=
    List.takeWhile_cons_of_neg (by simp [hc])
  unfold matchTail
  rw [if_pos h1]

theorem dropCI_instr_residue (key : List Char) :
    ∀ t rest : List Char, (∀ c ∈ t, isInstrChar c = true) →
      t.map Char.toLower ≠ key.map Char.toLower →
      (∀ k ∈ key, ¬ (' '.toLower = k.toLower)) →
      dropCI key (t ++ ' ' :: rest) = none ∨
        ∃ c cs, dropCI key (t ++ ' ' :: rest) = some (c :: cs) ∧
          isInstrChar c = true := by
  induction key with
  | nil =>
    intro t rest htc hne hksp
    cases t with
    | nil => exact absurd rfl hne
    | cons c t' => exact Or.inr ⟨c, t' ++ ' ' :: rest, rfl, htc c (by simp)⟩
  | cons k ks ih =>
    intro t rest htc hne hksp
    cases t with
    | nil =>
      left
      have hstep : dropCI (k :: ks) ([] ++ ' ' :: rest) =
          if ' '.toLower = k.toLower then dropCI ks rest else none := rfl
      rw [hstep, if_neg (hksp k (by simp))]
    | cons c t' =>
      have hstep : dropCI (k :: ks) (c :: t' ++ ' ' :: rest) =
          if c.toLower = k.toLower then dropCI ks (t' ++ ' ' :: rest) else none := rfl
      by_cases hck : c.toLower = k.toLower
      · have hne' : t'.map Char.toLower ≠ ks.map Char.toLower := by
          intro he
          exact hne (by simp [hck, he])
        have hres := ih t' rest (fun x hx => htc x (by simp [hx])) hne'
          (fun x hx => hksp x (by simp [hx]))
        rw [hstep, if_pos hck]
        exact hres
      · left
        rw [hstep, if_neg hck]

theorem matchActionLine_not_buy_sell {t I : List Char}
    (htc : ∀ c ∈ t, isInstrChar c = true)
    (hbuy : t.map Char.toLower ≠ ['b', 'u', 'y'])
    (hsell : t.map Char.toLower ≠ ['s', 'e', 'l', 'l']) :
    matchActionLine (t ++ ' ' :: I) = none := by
  have hmapb : (['B', 'U', 'Y'] : List Char).map Char.toLower = ['b', 'u', 'y'] := by
    decide
  have hmaps : (['S', 'E', 'L', 'L'] : List Char).map Char.toLower =
      ['s', 'e', 'l', 'l'] := by decide
  have hb := dropCI_instr_residue ['B', 'U', 'Y'] t I htc
    (by rw [hmapb]; exact hbuy) (by decide)
  have hs := dropCI_instr_residue ['S', 'E', 'L', 'L'] t I htc
    (by rw [hmaps]; exact hsell) (by decide)
  unfold matchActionLine
  rcases hb with hb | ⟨c, cs, hb, hc⟩
  · rcases hs with hs | ⟨d, ds, hs, hd⟩
    · simp [hb, hs]
    · simp [hb, hs, matchTail_no_space (not_space_of_instr hd)]
  · simp [hb, matchTail_no_space (not_space_of_instr hc)]

/-! ### Inversion for lifecycle notifications -/

theorem notify_mem_inv {o : OrderRec} {brokerOk : Bool} {g : String}
    {m : List (String × JVal)}
    (h : LifeEvent.notify g m ∈ processTrace o brokerOk) :
    (g = broadcastGroup { o with status := "executed" } ∧
      m = broadcastData { o with status := "executed" } "order.executed") ∨
    (g = broadcastGroup { o with status := "closed" } ∧
      m = broadcastData { o with status := "closed" } "order.closed") := by
  cases brokerOk
  case false => simp [processTrace] at h
  case true =>
    simp [processTrace, lifecycleTrace] at h
    exact h

/-! ### Claim theorems -/

/-- C2: the action-line regex accepts only `@<number>`; both the bracketed
spelling `[@1.0860]` (asserted to parse by the repository's own test
`test_buy_with_bracketed_entry_price`) and the unterminated `[@1.0860` are
rejected as malformed action lines.  This evaluates the parser at the
test's input and at the unterminated variant. -/
theorem bracketed_price_rejected :
    parse_signal ["BUY EURUSD [@1.0860]", "SL 1.0850", "TP 1.0890"] =
        .error (.invalidActionLine "BUY EURUSD [@1.0860]") ∧
      parse_signal ["BUY EURUSD [@1.0860", "SL 1.0850", "TP 1.0890"] =
        .error (.invalidActionLine "BUY EURUSD [@1.0860") :=
  ⟨by decide, by decide⟩

/-- C3: for every request whose signal parses and whose user has an active
broker account, the success branch of `receive_signal` reads `.id` and
`.status` on the bare UUID returned by `create_and_process_order`; the UUID
carries neither attribute, so the branch raises `AttributeError` and never
produces a response. -/
theorem receive_signal_success_branch_raises (rawLines : List String)
    (freshId : ℕ) (p : ParsedSignal) (hp : parse_signal rawLines = .ok p) :
    receive_signal rawLines true freshId = .attributeError ∧
      ∀ code, receive_signal rawLines true freshId ≠ .response code := by
  have hid : uuidGetAttr freshId "id" = none := by
    unfold uuidGetAttr
    rw [if_neg (by decide)]
  have hmain : receive_signal rawLines true freshId = .attributeError := by
    unfold receive_signal
    rw [hp]
    simp [create_and_process_order, hid]
  refine ⟨hmain, fun code hcode => ?_⟩
  rw [hmain] at hcode
  exact ViewOutcome.noConfusion hcode

/-- Witness for C3 at a concrete parsed request. -/
theorem receive_signal_success_branch_raises_witness :
    receive_signal ["BUY E @2", "SL 1", "TP 3"] true 0 = .attributeError ∧
      ∀ code, receive_signal ["BUY E @2", "SL 1", "TP 3"] true 0 ≠ .response code :=
  receive_signal_success_branch_raises ["BUY E @2", "SL 1", "TP 3"] 0
    ⟨"BUY", "E", some 2, 1, 3⟩ (by decide)

/-- C4: along every (possibly truncated) execution of the background task,
the persisted statuses form a prefix of pending→executed→closed (created
in `pending`, advancing monotonically, never regressing), the notification
types form a prefix of executed→closed, and `closed` is never persisted
without the `order.executed` notification having been published before
it. -/
theorem order_lifecycle_monotone (o : OrderRec) (brokerOk : Bool) (k : ℕ) :
    (∃ n, persistedStatuses ((processTrace o brokerOk).take k) =
      statusChain.take n) ∧
    (∃ m, notifiedTypes ((processTrace o brokerOk).take k) =
      ["order.executed", "order.closed"].take m) ∧
    ("closed" ∈ persistedStatuses ((processTrace o brokerOk).take k) →
      "order.executed" ∈ notifiedTypes ((processTrace o brokerOk).take k)) := by
  cases brokerOk
  case false =>
    match k with
    | 0 =>
      refine ⟨⟨0, rfl⟩, ⟨0, rfl⟩, ?_⟩
      rw [show persistedStatuses ((processTrace o false).take 0) = [] from rfl,
        show notifiedTypes ((processTrace o false).take 0) = [] from rfl]
      decide
    | 1 =>
      refine ⟨⟨1, rfl⟩, ⟨0, rfl⟩, ?_⟩
      rw [show persistedStatuses ((processTrace o false).take 1) = ["pending"] from rfl,
        show notifiedTypes ((processTrace o false).take 1) = [] from rfl]
      decide
    | 2 =>
      refine ⟨⟨1, rfl⟩, ⟨0, rfl⟩, ?_⟩
      rw [show persistedStatuses ((processTrace o false).take 2) = ["pending"] from rfl,
        show notifiedTypes ((processTrace o false).take 2) = [] from rfl]
      decide
    | (n + 3) =>
      rw [List.take_of_length_le (Nat.le_add_left 3 n)]
      refine ⟨⟨1, rfl⟩, ⟨0, rfl⟩, ?_⟩
      rw [show persistedStatuses (processTrace o false) = ["pending"] from rfl,
        show notifiedTypes (processTrace o false) = [] from rfl]
      decide
  case true =>
    match k with
    | 0 =>
      refine ⟨⟨0, rfl⟩, ⟨0, rfl⟩, ?_⟩
      rw [show persistedStatuses ((processTrace o true).take 0) = [] from rfl,
        show notifiedTypes ((processTrace o true).take 0) = [] from rfl]
      decide
    | 1 =>
      refine ⟨⟨1, rfl⟩, ⟨0, rfl⟩, ?_⟩
      rw [show persistedStatuses ((processTrace o true).take 1) = ["pending"] from rfl,
        show notifiedTypes ((processTrace o true).take 1) = [] from rfl]
      decide
    | 2 =>
      refine ⟨⟨1, rfl⟩, ⟨0, rfl⟩, ?_⟩
      rw [show persistedStatuses ((processTrace o true).take 2) = ["pending"] from rfl,
        show notifiedTypes ((processTrace o true).take 2) = [] from rfl]
      decide
    | 3 =>
      refine ⟨⟨1, rfl⟩, ⟨0, rfl⟩, ?_⟩
      rw [show persistedStatuses ((processTrace o true).take 3) = ["pending"] from rfl,
        show notifiedTypes ((processTrace o true).take 3) = [] from rfl]
      decide
    | 4 =>
      refine ⟨⟨1, rfl⟩, ⟨0, rfl⟩, ?_⟩
      rw [show persistedStatuses ((processTrace o true).take 4) = ["pending"] from rfl,
        show notifiedTypes ((processTrace o true).take 4) = [] from rfl]
      decide
    | 5 =>
      refine ⟨⟨2, rfl⟩, ⟨0, rfl⟩, ?_⟩
      rw [show persistedStatuses ((processTrace o true).take 5) =
          ["pending", "executed"] from rfl,
        show notifiedTypes ((processTrace o true).take 5) = [] from rfl]
      decide
    | 6 =>
      refine ⟨⟨2, rfl⟩, ⟨0, rfl⟩, ?_⟩
      rw [show persistedStatuses ((processTrace o true).take 6) =
          ["pending", "executed"] from rfl,
        show notifiedTypes ((processTrace o true).take 6) = [] from rfl]
      decide
    | 7 =>
      refine ⟨⟨2, rfl⟩, ⟨1, rfl⟩, ?_⟩
      rw [show persistedStatuses ((processTrace o true).take 7) =
          ["pending", "executed"] from rfl,
        show notifiedTypes ((processTrace o true).take 7) = ["order.executed"] from rfl]
      decide
    | 8 =>
      refine ⟨⟨3, rfl⟩, ⟨1, rfl⟩, ?_⟩
      rw [show persistedStatuses ((processTrace o true).take 8) =
          ["pending", "executed", "closed"] from rfl,
        show notifiedTypes ((processTrace o true).take 8) = ["order.executed"] from rfl]
      decide
    | 9 =>
      refine ⟨⟨3, rfl⟩, ⟨1, rfl⟩, ?_⟩
      rw [show persistedStatuses ((processTrace o true).take 9) =
          ["pending", "executed", "closed"] from rfl,
        show notifiedTypes ((processTrace o true).take 9) = ["order.executed"] from rfl]
      decide
    | (n + 10) =>
      rw [List.take_of_length_le (Nat.le_add_left 10 n)]
      refine ⟨⟨3, rfl⟩, ⟨2, rfl⟩, ?_⟩
      rw [show persistedStatuses (processTrace o true) =
          ["pending", "executed", "closed"] from rfl,
        show notifiedTypes (processTrace o true) =
          ["order.executed", "order.closed"] from rfl]
      decide

/-- Witness for C4 at a concrete order and truncation point. -/
theorem order_lifecycle_monotone_witness :
    (∃ n, persistedStatuses ((processTrace sampleOrder true).take 8) =
      statusChain.take n) ∧
    (∃ m, notifiedTypes ((processTrace sampleOrder true).take 8) =
      ["order.executed", "order.closed"].take m) ∧
    ("closed" ∈ persistedStatuses ((processTrace sampleOrder true).take 8) →
      "order.executed" ∈ notifiedTypes ((processTrace sampleOrder true).take 8)) :=
  order_lifecycle_monotone sampleOrder true 8

/-- C5: when the execution stub fails, every (possibly truncated) execution
of the task publishes no notification at all, and persists no status other
than the initial `pending`. -/
theorem broker_failure_leaves_pending (o : OrderRec) (k : ℕ) :
    notifiedTypes ((processTrace o false).take k) = [] ∧
      persistedStatuses ((processTrace o false).take k) =
        (if k = 0 then [] else ["pending"]) := by
  match k with
  | 0 => exact ⟨rfl, rfl⟩
  | 1 => exact ⟨rfl, rfl⟩
  | 2 => exact ⟨rfl, rfl⟩
  | (n + 3) =>
    rw [List.take_of_length_le (Nat.le_add_left 3 n)]
    refine ⟨rfl, ?_⟩
    rw [if_neg (show ¬(n + 3 = 0) by omega)]
    rfl

/-- Witness for C5 at a concrete order and truncation point. -/
theorem broker_failure_leaves_pending_witness :
    notifiedTypes ((processTrace sampleOrder false).take 3) = [] ∧
      persistedStatuses ((processTrace sampleOrder false).take 3) =
        (if (3 : ℕ) = 0 then [] else ["pending"]) :=
  broker_failure_leaves_pending sampleOrder 3

/-- C6: cross-field validation runs after action, stop loss and take profit
all resolve: with the structural stage succeeding, a BUY parse succeeds
exactly when `stopLoss < takeProfit` and a SELL parse exactly when
`stopLoss > takeProfit`; every violation, including equality, is rejected
with the corresponding risk/reward error. -/
theorem risk_reward_validation (rawLines : List String) (a i : String)
    (ep : Option ℚ) (sl tp : ℚ)
    (h : resolveFields rawLines = .ok (a, i, ep, sl, tp)) :
    (a = "BUY" ∨ a = "SELL") ∧
    (a = "BUY" →
      (sl < tp → parse_signal rawLines = .ok ⟨a, i, ep, sl, tp⟩) ∧
      (tp ≤ sl → parse_signal rawLines = .error (.buyRiskReward sl tp))) ∧
    (a = "SELL" →
      (tp < sl → parse_signal rawLines = .ok ⟨a, i, ep, sl, tp⟩) ∧
      (sl ≤ tp → parse_signal rawLines = .error (.sellRiskReward sl tp))) := by
  refine ⟨(resolveFields_inv h).1, ?_, ?_⟩
  · rintro rfl
    constructor
    · intro hlt
      unfold parse_signal
      rw [h]
      simp [riskCheck, not_le.mpr hlt]
    · intro hle
      unfold parse_signal
      rw [h]
      simp [riskCheck, hle]
  · rintro rfl
    constructor
    · intro hlt
      unfold parse_signal
      rw [h]
      simp [riskCheck, not_le.mpr hlt]
    · intro hle
      unfold parse_signal
      rw [h]
      simp [riskCheck, hle]

/-- Witness for C6: a BUY acceptance and a SELL equality rejection at
concrete inputs. -/
theorem risk_reward_validation_witness :
    parse_signal ["BUY E", "SL 1", "TP 2"] = .ok ⟨"BUY", "E", none, 1, 2⟩ ∧
      parse_signal ["SELL E", "SL 2", "TP 2"] = .error (.sellRiskReward 2 2) := by
  have h1 := risk_reward_validation ["BUY E", "SL 1", "TP 2"] "BUY" "E" none 1 2
    (by decide)
  have h2 := risk_reward_validation ["SELL E", "SL 2", "TP 2"] "SELL" "E" none 2 2
    (by decide)
  exact ⟨(h1.2.1 rfl).1 (by decide), (h2.2.2 rfl).2 (by decide)⟩

/-- C7 counterexample: `SL 0` is accepted (the token `0` is a valid float
and there is no positivity check), so the returned instruction's stop loss
is 0, which is not strictly positive. -/
theorem parse_zero_stop_loss :
    parse_signal ["BUY EURUSD", "SL 0", "TP 1"] =
        .ok ⟨"BUY", "EURUSD", none, 0, 1⟩ ∧
      ¬ ((0 : ℚ) < (0 : ℚ)) :=
  ⟨by decide, by decide⟩

/-- C7 amended: every instruction returned by the parser has a nonnegative
stop loss and take profit, and a nonnegative entry price when one is
present (the grammar admits no sign, but `0` is accepted, so strict
positivity fails). -/
theorem parse_values_nonneg (rawLines : List String) (p : ParsedSignal)
    (h : parse_signal rawLines = .ok p) :
    0 ≤ p.stop_loss ∧ 0 ≤ p.take_profit ∧
      ∀ v, p.entry_price = some v → 0 ≤ v := by
  obtain ⟨-, ⟨tX, hX⟩, ⟨tY, hY⟩, hEP⟩ := resolveFields_inv (parse_signal_ok h)
  refine ⟨pyFloat?_nonneg hX, pyFloat?_nonneg hY, fun v hv => ?_⟩
  obtain ⟨tP, hP⟩ := hEP v hv
  exact pyFloat?_nonneg hP

/-- Witness for C7's amended statement at a concrete parsed signal. -/
theorem parse_values_nonneg_witness :
    0 ≤ (1 : ℚ) ∧ 0 ≤ (3 : ℚ) ∧
      ∀ v, (some (2 : ℚ) : Option ℚ) = some v → 0 ≤ v :=
  parse_values_nonneg ["BUY E @2", "SL 1", "TP 3"] ⟨"BUY", "E", some 2, 1, 3⟩
    (by decide)

/-- C8 counterexample: the spec's own scenario `HOLD EURUSD / SL 1 / TP 2`
is rejected with the malformed-action-line error itself — the parser has no
distinct UnsupportedAction rejection (no such raise site exists). -/
theorem hold_is_invalid_action_line :
    parse_signal ["HOLD EURUSD", "SL 1", "TP 2"] =
      .error (.invalidActionLine "HOLD EURUSD") := by decide

/-- C8 amended: every input whose first non-blank line carries an
alphanumeric action token that is neither BUY nor SELL (case-insensitively)
fails with the malformed-action-line rejection — the same rejection as any
other action-line syntax error, not a distinct UnsupportedAction reason. -/
theorem unsupported_action_rejected (t I : List Char) (l2 l3 : String)
    (ht : t ≠ []) (htc : ∀ c ∈ t, isInstrChar c = true)
    (hbuy : t.map Char.toLower ≠ ['b', 'u', 'y'])
    (hsell : t.map Char.toLower ≠ ['s', 'e', 'l', 'l'])
    (hI : I ≠ []) (hIc : ∀ c ∈ I, isInstrChar c = true)
    (h2 : (stripStr l2).data.isEmpty = false)
    (h3 : (stripStr l3).data.isEmpty = false) :
    parse_signal [String.mk (t ++ ' ' :: I), l2, l3] =
      .error (.invalidActionLine (String.mk (t ++ ' ' :: I))) := by
  obtain ⟨c0, t', rfl⟩ : ∃ c0 t', t = c0 :: t' := by
    cases t with
    | nil => exact absurd rfl ht
    | cons c0 t' => exact ⟨c0, t', rfl⟩
  simp only [List.cons_append]
  have h2' : (stripChars l2.data).isEmpty = false := h2
  have h3' : (stripChars l3.data).isEmpty = false := h3
  have hstrip : stripChars (c0 :: (t' ++ ' ' :: I)) = c0 :: (t' ++ ' ' :: I) := by
    have he : c0 :: (t' ++ ' ' :: I) = c0 :: ((t' ++ [' ']) ++ I) := by simp
    rw [he]
    exact stripChars_fixed (not_space_of_instr (htc c0 (by simp))) hI
      (fun c hc => not_space_of_instr (hIc c hc))
  have hnorm : normalizeLines [String.mk (c0 :: (t' ++ ' ' :: I)), l2, l3] =
      [String.mk (c0 :: (t' ++ ' ' :: I)), String.mk (stripChars l2.data),
        String.mk (stripChars l3.data)] := by
    unfold normalizeLines
    simp [stripStr, hstrip, h2', h3']
  have hact : matchActionLine (c0 :: (t' ++ ' ' :: I)) = none :=
    matchActionLine_not_buy_sell htc hbuy hsell
  unfold parse_signal resolveFields
  rw [hnorm]
  unfold resolveFieldsNorm
  simp [hact]

/-- Witness for C8's amended statement at the spec's HOLD scenario. -/
theorem unsupported_action_rejected_witness :
    parse_signal
        [String.mk (['H', 'O', 'L', 'D'] ++ ' ' :: ['E', 'U', 'R', 'U', 'S', 'D']),
          "SL 1", "TP 2"] =
      .error (.invalidActionLine
        (String.mk (['H', 'O', 'L', 'D'] ++ ' ' :: ['E', 'U', 'R', 'U', 'S', 'D']))) :=
  unsupported_action_rejected ['H', 'O', 'L', 'D'] ['E', 'U', 'R', 'U', 'S', 'D']
    "SL 1" "TP 2" (by decide) (by decide) (by decide) (by decide) (by decide)
    (by decide) (by decide) (by decide)

/-- C9 counterexample: a published lifecycle notification's payload has no
`owner` key — the owner's identity is carried under the key `user` — so the
payload schema is not the claimed one ending in `owner`. -/
theorem notification_payload_no_owner_key :
    LifeEvent.notify (broadcastGroup { sampleOrder with status := "executed" })
        (broadcastData { sampleOrder with status := "executed" } "order.executed")
        ∈ processTrace sampleOrder true ∧
      "owner" ∉ (broadcastData { sampleOrder with status := "executed" }
        "order.executed").map Prod.fst := by
  constructor
  · simp [processTrace, lifecycleTrace]
  · decide

/-- C9 amended: every notification published for an order transition
carries exactly the keys type, order_id, instrument, action, status,
entry_price, stop_loss, take_profit, user (the owner's username under the
key `user`, not `owner`), has type `order.executed` or `order.closed`, and
is published on the channel group `orders_user_<owner id>`. -/
theorem notification_payload_schema (o : OrderRec) (brokerOk : Bool)
    (g : String) (m : List (String × JVal))
    (h : LifeEvent.notify g m ∈ processTrace o brokerOk) :
    m.map Prod.fst = ["type", "order_id", "instrument", "action", "status",
      "entry_price", "stop_loss", "take_profit", "user"] ∧
    (m.lookup "type" = some (.s "order.executed") ∨
      m.lookup "type" = some (.s "order.closed")) ∧
    g = "orders_user_" ++ toString o.userId := by
  rcases notify_mem_inv h with ⟨rfl, rfl⟩ | ⟨rfl, rfl⟩
  · exact ⟨rfl, Or.inl rfl, rfl⟩
  · exact ⟨rfl, Or.inr rfl, rfl⟩

/-- Witness for C9's amended statement at a concrete order's executed
notification. -/
theorem notification_payload_schema_witness :
    (broadcastData { sampleOrder with status := "executed" }
        "order.executed").map Prod.fst =
      ["type", "order_id", "instrument", "action", "status",
        "entry_price", "stop_loss", "take_profit", "user"] ∧
    ((broadcastData { sampleOrder with status := "executed" }
        "order.executed").lookup "type" = some (.s "order.executed") ∨
      (broadcastData { sampleOrder with status := "executed" }
        "order.executed").lookup "type" = some (.s "order.closed")) ∧
    broadcastGroup { sampleOrder with status := "executed" } =
      "orders_user_" ++ toString sampleOrder.userId :=
  notification_payload_schema sampleOrder true
    (broadcastGroup { sampleOrder with status := "executed" })
    (broadcastData { sampleOrder with status := "executed" } "order.executed")
    (by simp [processTrace, lifecycleTrace])

/-- C10: every lifecycle notification is published on the owner-specific
group `orders_user_<id>`, which is distinct from the single group
`orders_updates` that every connecting `OrderConsumer` joins; hence a
client connected through `OrderConsumer` receives no lifecycle event. -/
theorem consumer_receives_no_lifecycle_event (o : OrderRec) (brokerOk : Bool)
    (g : String) (m : List (String × JVal))
    (h : LifeEvent.notify g m ∈ processTrace o brokerOk) :
    g = "orders_user_" ++ toString o.userId ∧ g ≠ ordersUpdatesGroup ∧
      consumerReceives g = false := by
  have hg : g = "orders_user_" ++ toString o.userId := by
    rcases notify_mem_inv h with ⟨rfl, -⟩ | ⟨rfl, -⟩ <;> rfl
  have hne : ∀ s : String, "orders_user_" ++ s ≠ "orders_updates" := by
    intro s hs
    have hd := congrArg String.data hs
    rw [String.data_append] at hd
    have h1 : ("orders_user_" : String).data =
        ['o', 'r', 'd', 'e', 'r', 's', '_', 'u', 's', 'e', 'r', '_'] := rfl
    have h2 : ("orders_updates" : String).data =
        ['o', 'r', 'd', 'e', 'r', 's', '_', 'u', 'p', 'd', 'a', 't', 'e', 's'] := rfl
    rw [h1, h2] at hd
    simp only [List.cons_append, List.cons.injEq] at hd
    exact absurd hd.2.2.2.2.2.2.2.2.1 (by decide)
  refine ⟨hg, ?_, ?_⟩
  · rw [hg]
    exact hne _
  · have : g ≠ ordersUpdatesGroup := by
      rw [hg]
      exact hne _
    simp [consumerReceives, this]

/-- Witness for C10 at a concrete order's executed notification. -/
theorem consumer_receives_no_lifecycle_event_witness :
    broadcastGroup { sampleOrder with status := "executed" } =
        "orders_user_" ++ toString sampleOrder.userId ∧
      broadcastGroup { sampleOrder with status := "executed" } ≠
        ordersUpdatesGroup ∧
      consumerReceives (broadcastGroup { sampleOrder with status := "executed" }) =
        false :=
  consumer_receives_no_lifecycle_event sampleOrder true
    (broadcastGroup { sampleOrder with status := "executed" })
    (broadcastData { sampleOrder with status := "executed" } "order.executed")
    (by simp [processTrace, lifecycleTrace])

end SignalsApp
